import Mathlib

/-!
Verification of the chat subsystem of a small business-assistant backend.

The development shallowly embeds the conversation / context / identity logic
of the backend's chat handlers: user-identity resolution across the native
account table and the secondary (Telegram) identity table, the three-layer
context merge, the conversation-title state machine, the structured-output
extractor (title line, fenced / brace-span JSON directive, markdown-table
fallback), the conversation-context upsert, and the conversation listing,
creation and context-update operations.

Strings are modelled as lists of characters (`Str`), database tables as Lean
lists, and SQL row operations as list traversals, so that every definition is
executable and every concrete scenario can be settled by `decide`.
-/

namespace AlphaChat

/-- Strings are modelled as lists of Unicode characters.  Rust code indexes
strings by bytes, but every index the embedded functions compute is also used
only to slice the same string, so character-based indexing is observationally
identical. -/
abbrev Str := List Char

/-- The set of characters Rust's `char::is_whitespace` (Unicode `White_Space`)
accepts; used by the embedding of `str::trim`. -/
def isWsChar (c : Char) : Bool :=
  ([9, 10, 11, 12, 13, 32, 0x85, 0xA0, 0x1680, 0x2028, 0x2029, 0x202F,
    0x205F, 0x3000] : List Nat).contains c.toNat
  || (0x2000 ≤ c.toNat && c.toNat ≤ 0x200A)

/-- Embedding of Rust `str::trim`: drop whitespace from both ends. -/
def trimStr (s : Str) : Str :=
  ((s.dropWhile isWsChar).reverse.dropWhile isWsChar).reverse

/-- Embedding of Rust `str::split(c)`: split on a separator character, keeping
empty segments (`"|".split('|')` yields two empty segments). -/
def splitOnChar (c : Char) : Str → List Str
  | [] => [[]]
  | x :: xs =>
    let rest := splitOnChar c xs
    if x = c then [] :: rest
    else
      match rest with
      | r :: rs => (x :: r) :: rs
      | [] => [[x]]

/-- Does `s` start with the pattern `p` (Rust `str::starts_with`)? -/
def startsWithStr : Str → Str → Bool
  | _, [] => true
  | [], _ :: _ => false
  | a :: as_, b :: bs => a = b && startsWithStr as_ bs

/-- Embedding of Rust `str::lines()`: split on `'\n'`, a trailing newline does
not produce a final empty line, and a trailing `'\r'` is stripped from each
line. -/
def rustLines (s : Str) : List Str :=
  if s = [] then []
  else
    let parts := splitOnChar '\n' s
    let parts := if s.getLast? = some '\n' then parts.dropLast else parts
    parts.map (fun l => if l.getLast? = some '\r' then l.dropLast else l)

/-- `models::ConversationContext` — six independently nullable classification
fields. -/
structure ConversationContext where
  user_role : Option Str
  business_stage : Option Str
  goal : Option Str
  urgency : Option Str
  region : Option Str
  business_niche : Option Str
deriving DecidableEq, Repr

/-- `models::ContextFilters` — the transient per-message override of the same
six fields. -/
structure ContextFilters where
  user_role : Option Str
  business_stage : Option Str
  goal : Option Str
  urgency : Option Str
  region : Option Str
  business_niche : Option Str
deriving DecidableEq, Repr

/-- The conversation-layer block of `merge_contexts`: six independent
`if let Some(v) = conv.field { result.field = Some(v) }` statements, rendered
as one simultaneous record construction (the statements touch disjoint
fields). -/
def applyConversationLayer (result : ConversationContext) (conv : ConversationContext) :
    ConversationContext where
  user_role := match conv.user_role with
    | some role => some role
    | none => result.user_role
  business_stage := match conv.business_stage with
    | some stage => some stage
    | none => result.business_stage
  goal := match conv.goal with
    | some goal => some goal
    | none => result.goal
  urgency := match conv.urgency with
    | some urgency => some urgency
    | none => result.urgency
  region := match conv.region with
    | some region => some region
    | none => result.region
  business_niche := match conv.business_niche with
    | some niche => some niche
    | none => result.business_niche

/-- The filters-layer block of `merge_contexts` (highest precedence), same
shape as the conversation layer. -/
def applyFiltersLayer (result : ConversationContext) (f : ContextFilters) :
    ConversationContext where
  user_role := match f.user_role with
    | some role => some role
    | none => result.user_role
  business_stage := match f.business_stage with
    | some stage => some stage
    | none => result.business_stage
  goal := match f.goal with
    | some goal => some goal
    | none => result.goal
  urgency := match f.urgency with
    | some urgency => some urgency
    | none => result.urgency
  region := match f.region with
    | some region => some region
    | none => result.region
  business_niche := match f.business_niche with
    | some niche => some niche
    | none => result.business_niche

/-- Embedding of `merge_contexts` (handlers/chat.rs): start from the base
context, apply the conversation layer if present, then the request filters if
present. -/
def merge_contexts (base : ConversationContext) (conversation : Option ConversationContext)
    (filters : Option ContextFilters) : ConversationContext :=
  let result := base
  let result := match conversation with
    | some conv => applyConversationLayer result conv
    | none => result
  match filters with
  | some f => applyFiltersLayer result f
  | none => result

/-- Modelled from the spec's merge rule, for one field: ascending precedence
base → conversation → filters, where a layer's value wins only when it is
non-null. -/
def layerPick (top mid bot : Option Str) : Option Str :=
  match top with
  | some v => some v
  | none =>
    match mid with
    | some v => some v
    | none => bot

/-- Structured table payload (`models::TableSpec`): headers plus rows of
cells. -/
structure TableSpec where
  headers : List Str
  rows : List (List Str)
deriving DecidableEq, Repr

/-- The title-extraction block at the top of `send_message`: if the first line
(trimmed) starts with `TITLE:`, the remainder of that line (trimmed, first 80
characters) becomes the title; a blank second line is dropped from the body;
otherwise the body keeps the second line onward.  Without the marker the whole
raw text is the body. -/
def extract_title_and_body (raw : Str) : Option Str × Str :=
  match rustLines raw with
  | [] => (none, raw)
  | first :: rest =>
    let trimmed := trimStr first
    if startsWithStr trimmed ("TITLE:".data) then
      let restOfLine := trimmed.drop 6
      let t := trimStr restOfLine
      let title := if t ≠ [] then some (t.take 80) else none
      match rest with
      | [] => (title, [])
      | second :: rest2 =>
        if trimStr second = [] then (title, List.intercalate ['\n'] rest2)
        else (title, List.intercalate ['\n'] (second :: rest2))
    else (none, raw)

/-- The derived-title fallback in `send_message`: when no explicit `TITLE:`
marker produced a title, the first non-blank line of the body (trimmed, first
80 characters) is used instead. -/
def derived_title (raw : Str) : Option Str :=
  let extracted := extract_title_and_body raw
  match extracted.1 with
  | some t => some t
  | none =>
    let first_line := trimStr (((rustLines extracted.2).find? (fun l => trimStr l ≠ [])).getD [])
    if first_line ≠ [] then some (first_line.take 80) else none

/-- Does the trimmed line start with a pipe character? -/
def startsPipe (s : Str) : Bool := s.head? = some '|'

/-- Does the trimmed line end with a pipe character? -/
def endsPipe (s : Str) : Bool := s.getLast? = some '|'

/-- Start and end with a pipe: the test `parse_markdown_table` uses to collect
table lines. -/
def fullPipe (s : Str) : Bool := startsPipe s && endsPipe s

/-- The line-collection loop of `parse_markdown_table`: collect trimmed lines
that start and end with `'|'`; once inside a table, a line that does not start
with `'|'` ends the collection, while any other line is skipped. -/
def collectTableLines : List Str → Bool → List Str
  | [], _ => []
  | line :: rest, in_table =>
    let trimmed := trimStr line
    if fullPipe trimmed then trimmed :: collectTableLines rest true
    else if in_table && !(startsPipe trimmed) then []
    else collectTableLines rest in_table

/-- Cell splitting used by `parse_markdown_table` for both headers and data
rows: split on `'|'`, trim each token, drop every empty token. -/
def splitCells (line : Str) : List Str :=
  ((splitOnChar '|' line).map trimStr).filter (fun s => s ≠ [])

/-- Embedding of `parse_markdown_table` (handlers/chat.rs): collect pipe
lines, require at least two, take headers from the first, skip the separator,
and turn each remaining collected line with at least one non-empty cell into a
row padded / truncated to the header count. -/
def parse_markdown_table (text : Str) : Option TableSpec :=
  let table_lines := collectTableLines (rustLines text) false
  if table_lines.length < 2 then none
  else
    let headers := splitCells (table_lines.headD [])
    if headers = [] then none
    else
      let rows := (table_lines.drop 2).foldl (fun rows line =>
        let cells := splitCells line
        if cells.length = headers.length then rows ++ [cells]
        else if 0 < cells.length then
          rows ++ [(cells ++ List.replicate (headers.length - cells.length) []).take headers.length]
        else rows) ([] : List (List Str))
      if rows = [] then none
      else some ⟨headers, rows⟩

/-- Modelled from the amended claim for the markdown-table fallback: the
scanned region starts at the first line whose trimmed form starts and ends
with `'|'` and extends over the following lines that start with `'|'`; within
it, only lines that also end with `'|'` are kept.  The first kept line gives
the headers (split on `'|'`, trimmed, all empty tokens dropped), the second is
the separator, and each later kept line with at least one non-empty cell
becomes a data row padded / truncated to the header count. -/
def specTableRegion (ls : List Str) : List Str :=
  match ls.dropWhile (fun l => !(fullPipe (trimStr l))) with
  | [] => []
  | first :: rest =>
    trimStr first ::
      ((rest.takeWhile (fun l => startsPipe (trimStr l))).filter
        (fun l => fullPipe (trimStr l))).map trimStr

/-- Modelled from the amended claim: the markdown-table fallback expressed
over `specTableRegion`, with data rows produced by a filter-map that drops
lines with no non-empty cell and pads or truncates the rest. -/
def parse_markdown_table_amended (text : Str) : Option TableSpec :=
  match specTableRegion (rustLines text) with
  | header_line :: _ :: rest =>
    let headers := splitCells header_line
    if headers = [] then none
    else
      let rows := rest.filterMap (fun line =>
        let cells := splitCells line
        if cells = [] then none
        else some ((cells ++ List.replicate (headers.length - cells.length) []).take headers.length))
      if rows = [] then none
      else some ⟨headers, rows⟩
  | _ => none

/-- Drop empty tokens only at the two edges of a token list (the reading of
"drop empty edge tokens" in the original claim). -/
def dropEmptyEdges (ts : List Str) : List Str :=
  ((ts.dropWhile (fun s => s = [])).reverse.dropWhile (fun s => s = [])).reverse

/-- Modelled from the original claim C4's words (for the counterexample): the
table is read from the first contiguous run of lines that both start and end
with `'|'`; headers are split on `'|'`, trimmed, with only empty edge tokens
dropped; the second line is skipped; every subsequent line of the run becomes
a data row padded / truncated to the header count, never rejected. -/
def parse_markdown_table_claimed (text : Str) : Option TableSpec :=
  let run := ((rustLines text).map trimStr).dropWhile (fun l => !(fullPipe l))
  let run := run.takeWhile fullPipe
  match run with
  | header_line :: _ :: rest =>
    let headers := dropEmptyEdges ((splitOnChar '|' header_line).map trimStr)
    if headers = [] then none
    else
      let rows := rest.map (fun line =>
        let cells := dropEmptyEdges ((splitOnChar '|' line).map trimStr)
        (cells ++ List.replicate (headers.length - cells.length) []).take headers.length)
      if rows = [] then none
      else some ⟨headers, rows⟩
  | _ => none

/-- A row of the `users` table, restricted to the columns the chat handlers
consult (`id`, `telegram_username`). -/
structure User where
  id : Str
  telegram_username : Option Str
deriving DecidableEq, Repr

/-- A row of the `telegram_users` table, restricted to the columns consulted
by identity resolution. -/
structure TelegramUser where
  telegram_user_id : Int
  telegram_username : Option Str
  user_id : Option Str
deriving DecidableEq, Repr

/-- A row of the `conversations` table.  `created_at` (an RFC 3339 string in
the store, ordered via `datetime(...)`) is modelled as a natural-number
timestamp with the same order. -/
structure Conversation where
  id : Str
  user_id : Str
  title : Option Str
  created_at : Nat
deriving DecidableEq, Repr

/-- A row of the `conversation_context` table (its six nullable columns; the
`updated_at` bookkeeping column is not consulted by any embedded operation). -/
structure CtxRow where
  user_role : Option Str
  business_stage : Option Str
  goal : Option Str
  urgency : Option Str
  region : Option Str
  business_niche : Option Str
deriving DecidableEq, Repr

/-- The database state visible to the chat handlers. -/
structure Db where
  users : List User
  telegram_users : List TelegramUser
  conversations : List Conversation
  conversation_context : List (Str × CtxRow)
deriving DecidableEq, Repr

/-- There is at most one `conversation_context` row per conversation id (the
column is the table's primary key). -/
def keysNodup (tbl : List (Str × CtxRow)) : Prop := (tbl.map Prod.fst).Nodup

instance (tbl : List (Str × CtxRow)) : Decidable (keysNodup tbl) :=
  inferInstanceAs (Decidable (List.Nodup _))

/-- Is the character an ASCII digit? -/
def isDigitChar (c : Char) : Bool := '0' ≤ c && c ≤ '9'

/-- Embedding of Rust `str::parse::<i64>()`: an optional sign, one or more
ASCII digits, and a value within the signed 64-bit range. -/
def parseI64 (s : Str) : Option Int :=
  match s with
  | [] => none
  | c :: rest =>
    let digits := if c = '-' ∨ c = '+' then rest else s
    let neg := c = '-'
    if digits = [] then none
    else if digits.all isDigitChar then
      let n : Nat := digits.foldl (fun acc d => acc * 10 + (d.toNat - '0'.toNat)) 0
      let v : Int := if neg then -(n : Int) else (n : Int)
      if -(2 ^ 63) ≤ v ∧ v ≤ 2 ^ 63 - 1 then some v else none
    else none

/-- Embedding of `resolve_user_id_for_conversations` (handlers/chat.rs): an
inbound identifier is returned unchanged when it is a main user id; a numeric
identifier is resolved through the direct `telegram_users.user_id` link, then
through a `telegram_username` match; any still-unresolved identifier is looked
up as a `telegram_username` of a main user; otherwise it is returned
unchanged.  `fetch_optional` is modelled as `head?` of the matching rows, and
query errors do not occur in the model. -/
def resolve_user_id_for_conversations (db : Db) (user_id : Str) : Str :=
  let is_main_user := (db.users.filter (fun u => decide (u.id = user_id))).length
  if is_main_user = 1 then user_id
  else
    let numeric_result : Option Str :=
      match parseI64 user_id with
      | some telegram_user_id =>
        let linked_user_id :=
          ((db.telegram_users.filter (fun t =>
            decide (t.telegram_user_id = telegram_user_id) && decide (t.user_id ≠ none))).head?).bind
            TelegramUser.user_id
        match linked_user_id with
        | some main_user_id => some main_user_id
        | none =>
          let telegram_username :=
            ((db.telegram_users.filter (fun t =>
              decide (t.telegram_user_id = telegram_user_id)
                && decide (t.telegram_username ≠ none))).head?).bind
              TelegramUser.telegram_username
          match telegram_username with
          | some username =>
            ((db.users.filter (fun u =>
              decide (u.telegram_username = some username))).head?).map User.id
          | none => none
      | none => none
    match numeric_result with
    | some main_user_id => main_user_id
    | none =>
      match ((db.users.filter (fun u =>
        decide (u.telegram_username = some user_id))).head?).map User.id with
      | some main_user_id => main_user_id
      | none => user_id

/-- The insert arm of the `conversation_context` upsert: a fresh row carries
exactly the provided filter fields. -/
def CtxRow.ofFilters (f : ContextFilters) : CtxRow :=
  ⟨f.user_role, f.business_stage, f.goal, f.urgency, f.region, f.business_niche⟩

/-- The update arm of the upsert: `COALESCE(excluded.field, current.field)`
for each of the six columns — the incoming value wins only when non-null. -/
def CtxRow.coalesce (row : CtxRow) (f : ContextFilters) : CtxRow where
  user_role := match f.user_role with
    | some v => some v
    | none => row.user_role
  business_stage := match f.business_stage with
    | some v => some v
    | none => row.business_stage
  goal := match f.goal with
    | some v => some v
    | none => row.goal
  urgency := match f.urgency with
    | some v => some v
    | none => row.urgency
  region := match f.region with
    | some v => some v
    | none => row.region
  business_niche := match f.business_niche with
    | some v => some v
    | none => row.business_niche

/-- Embedding of `save_conversation_context` (handlers/chat.rs): an upsert
keyed on `conversation_id` whose update clause coalesces each field
independently. -/
def save_conversation_context (tbl : List (Str × CtxRow)) (conversation_id : Str)
    (context : ContextFilters) : List (Str × CtxRow) :=
  if tbl.any (fun r => decide (r.1 = conversation_id)) then
    tbl.map (fun r => if r.1 = conversation_id then (r.1, r.2.coalesce context) else r)
  else tbl ++ [(conversation_id, CtxRow.ofFilters context)]

/-- One row's view of the automatic title update in `send_message`
(`UPDATE conversations SET title = ? WHERE id = ? AND (title IS NULL OR
title = '')`). -/
def apply_auto_title (conversation_id : Str) (t : Str) (c : Conversation) : Conversation :=
  if c.id = conversation_id ∧ (c.title = none ∨ c.title = some []) then
    { c with title := some t }
  else c

/-- The derive-and-set path of `send_message`: when a title was derived (from
the `TITLE:` marker or from the first non-blank body line) the guarded update
runs over the table; when none was derived nothing happens. -/
def auto_title_step (convs : List Conversation) (conversation_id : Str) (raw : Str) :
    List Conversation :=
  match derived_title raw with
  | some t => convs.map (apply_auto_title conversation_id t)
  | none => convs

/-- One row's view of the explicit rename
(`UPDATE conversations SET title = ? WHERE id = ? AND user_id = ?`): the
title, possibly null, overwrites unconditionally on a match. -/
def apply_rename (conversation_id user_id : Str) (title : Option Str) (c : Conversation) :
    Conversation :=
  if c.id = conversation_id ∧ c.user_id = user_id then { c with title := title } else c

/-- Embedding of `update_conversation_title` (handlers/chat.rs): the updated
table together with the number of affected rows (the handler reports
not-found-or-not-owned when that number is zero). -/
def update_conversation_title (convs : List Conversation) (conversation_id user_id : Str)
    (title : Option Str) : List Conversation × Nat :=
  (convs.map (apply_rename conversation_id user_id title),
   (convs.filter (fun c => decide (c.id = conversation_id ∧ c.user_id = user_id))).length)

/-- Reading a `conversation_context` row into the API context shape. -/
def ConversationContext.ofRow (r : CtxRow) : ConversationContext :=
  ⟨r.user_role, r.business_stage, r.goal, r.urgency, r.region, r.business_niche⟩

/-- `models::ConversationSummary` — one element of the list endpoint's
response. -/
structure ConversationSummary where
  id : Str
  user_id : Str
  title : Option Str
  created_at : Nat
  context : Option ConversationContext
deriving DecidableEq, Repr

/-- One row of the `LEFT JOIN` in `list_conversations`: the context object is
attached exactly when the joined `user_role` column is non-null (the
handler's presence test), and absent both when no context row exists and when
the row's `user_role` is null. -/
def summarize (db : Db) (c : Conversation) : ConversationSummary :=
  let row := ((db.conversation_context.filter (fun r => decide (r.1 = c.id))).head?).map Prod.snd
  let context := match row with
    | some x => if x.user_role.isSome then some (ConversationContext.ofRow x) else none
    | none => none
  ⟨c.id, c.user_id, c.title, c.created_at, context⟩

/-- The `ORDER BY datetime(created_at) DESC` order on conversations. -/
def byCreatedDesc (a b : Conversation) : Prop := b.created_at ≤ a.created_at

instance : DecidableRel byCreatedDesc := fun _ _ => Nat.decLe _ _

instance : IsTotal Conversation byCreatedDesc :=
  ⟨fun a b => Nat.le_total b.created_at a.created_at⟩

instance : IsTrans Conversation byCreatedDesc :=
  ⟨fun _ _ _ hab hbc => Nat.le_trans hbc hab⟩

/-- Embedding of `list_conversations` (handlers/chat.rs): resolve the inbound
identifier, select the conversations owned by the resolved id, order by
creation time descending, and join each with its context row. -/
def list_conversations (db : Db) (user_id : Str) : List ConversationSummary :=
  let resolved := resolve_user_id_for_conversations db user_id
  (List.insertionSort byCreatedDesc
    (db.conversations.filter (fun c => decide (c.user_id = resolved)))).map (summarize db)

/-- The create arm of `send_message`'s conversation resolution: insert a
conversation with null title owned by the resolved user, then persist the
inline context filters when given.  The fresh UUID and timestamp are
parameters of the model. -/
def create_new_conversation (db : Db) (resolved_user_id : Str)
    (context_filters : Option ContextFilters) (new_id : Str) (now : Nat) : Str × Db :=
  let db1 := { db with conversations := db.conversations ++ [⟨new_id, resolved_user_id, none, now⟩] }
  let db2 := match context_filters with
    | some ctx =>
      { db1 with conversation_context :=
          save_conversation_context db1.conversation_context new_id ctx }
    | none => db1
  (new_id, db2)

/-- Embedding of `send_message`'s resolve-or-create block: reuse the supplied
conversation id only when a conversation with that id exists and is owned by
the resolved user; otherwise (no id supplied, unknown id, or foreign owner)
create a fresh conversation. -/
def get_or_create_conversation (db : Db) (resolved_user_id : Str)
    (conversation_id : Option Str) (context_filters : Option ContextFilters)
    (new_id : Str) (now : Nat) : Str × Db :=
  match conversation_id with
  | some cid =>
    if db.conversations.any (fun c => decide (c.id = cid ∧ c.user_id = resolved_user_id)) then
      (cid, db)
    else create_new_conversation db resolved_user_id context_filters new_id now
  | none => create_new_conversation db resolved_user_id context_filters new_id now

/-- Outcome of the explicit context-update endpoint. -/
inductive UpdateContextResult where
  | ok
  | notFound
deriving DecidableEq, Repr

/-- Embedding of `update_conversation_context` (handlers/chat.rs): the
handler checks only that a conversation with the given id exists — it takes
no account parameter at all — then applies the context upsert. -/
def update_conversation_context (db : Db) (conversation_id : Str) (context : ContextFilters) :
    UpdateContextResult × Db :=
  if db.conversations.any (fun c => decide (c.id = conversation_id)) then
    (.ok, { db with conversation_context :=
        save_conversation_context db.conversation_context conversation_id context })
  else (.notFound, db)

/-- JSON values, for the model of `serde_json::from_str::<FileIntent>` used
by `extract_file_intent`. -/
inductive Jv where
  | jnull
  | jbool (b : Bool)
  | jnum (raw : Str)
  | jstr (v : Str)
  | jarr (xs : List Jv)
  | jobj (fields : List (Str × Jv))

/-- JSON insignificant whitespace. -/
def isJsonWs (c : Char) : Bool := c = ' ' || c = '\t' || c = '\n' || c = '\r'

/-- Skip insignificant whitespace. -/
def skipWs (s : Str) : Str := s.dropWhile isJsonWs

/-- Hexadecimal digit value. -/
def parseHex (c : Char) : Option Nat :=
  if '0' ≤ c ∧ c ≤ '9' then some (c.toNat - '0'.toNat)
  else if 'a' ≤ c ∧ c ≤ 'f' then some (c.toNat - 'a'.toNat + 10)
  else if 'A' ≤ c ∧ c ≤ 'F' then some (c.toNat - 'A'.toNat + 10)
  else none

/-- Simple JSON escape characters. -/
def unescapeChar (e : Char) : Option Char :=
  if e = '"' then some '"'
  else if e = '\\' then some '\\'
  else if e = '/' then some '/'
  else if e = 'b' then some (Char.ofNat 8)
  else if e = 'f' then some (Char.ofNat 12)
  else if e = 'n' then some '\n'
  else if e = 'r' then some '\r'
  else if e = 't' then some '\t'
  else none

/-- Parse the body of a JSON string after its opening quote; returns the
decoded characters and the remaining input after the closing quote. -/
def parseJStringBody : Str → Option (Str × Str)
  | [] => none
  | '"' :: rest => some ([], rest)
  | '\\' :: 'u' :: h1 :: h2 :: h3 :: h4 :: rest =>
    match parseHex h1, parseHex h2, parseHex h3, parseHex h4 with
    | some a, some b, some c, some d =>
      match parseJStringBody rest with
      | some (vs, r) => some (Char.ofNat (((a * 16 + b) * 16 + c) * 16 + d) :: vs, r)
      | none => none
    | _, _, _, _ => none
  | '\\' :: e :: rest =>
    match unescapeChar e with
    | some ch =>
      match parseJStringBody rest with
      | some (vs, r) => some (ch :: vs, r)
      | none => none
    | none => none
  | c :: rest =>
    match parseJStringBody rest with
    | some (vs, r) => some (c :: vs, r)
    | none => none

/-- Parse a JSON number (sign, integer part, optional fraction and exponent);
the raw characters are kept, the value is never consulted. -/
def parseJNumber (s : Str) : Option (Str × Str) :=
  let signSplit : Str × Str := match s with
    | '-' :: r => (['-'], r)
    | _ => ([], s)
  let ip := signSplit.2.takeWhile isDigitChar
  let s2 := signSplit.2.drop ip.length
  if ip = [] then none
  else
    let fracRes : Option (Str × Str) := match s2 with
      | '.' :: r =>
        let fd := r.takeWhile isDigitChar
        if fd = [] then none else some ('.' :: fd, r.drop fd.length)
      | _ => some ([], s2)
    match fracRes with
    | none => none
    | some (fp, s3) =>
      let expRes : Option (Str × Str) := match s3 with
        | e :: r =>
          if e = 'e' ∨ e = 'E' then
            let es : Str × Str := match r with
              | '+' :: rr => (['+'], rr)
              | '-' :: rr => (['-'], rr)
              | _ => ([], r)
            let ed := es.2.takeWhile isDigitChar
            if ed = [] then none else some (e :: (es.1 ++ ed), es.2.drop ed.length)
          else some ([], s3)
        | [] => some ([], s3)
      match expRes with
      | none => none
      | some (ep, s4) => some (signSplit.1 ++ ip ++ fp ++ ep, s4)

mutual

/-- Fuel-indexed recursive-descent JSON value parser. -/
def parseJv : Nat → Str → Option (Jv × Str)
  | 0, _ => none
  | fuel + 1, s =>
    let s := skipWs s
    match s with
    | [] => none
    | c :: rest =>
      if c = '"' then
        match parseJStringBody rest with
        | some (v, r) => some (.jstr v, r)
        | none => none
      else if c = '\x7b' then parseJObj fuel rest
      else if c = '[' then parseJArr fuel rest
      else if startsWithStr s ("true".data) then some (.jbool true, s.drop 4)
      else if startsWithStr s ("false".data) then some (.jbool false, s.drop 5)
      else if startsWithStr s ("null".data) then some (.jnull, s.drop 4)
      else if c = '-' ∨ isDigitChar c then
        match parseJNumber s with
        | some (raw, r) => some (.jnum raw, r)
        | none => none
      else none

/-- Object parser, entered after the opening brace. -/
def parseJObj : Nat → Str → Option (Jv × Str)
  | 0, _ => none
  | fuel + 1, s =>
    match skipWs s with
    | '\x7d' :: rest => some (.jobj [], rest)
    | s1 => parseJMembers fuel s1 []

/-- Object member list parser. -/
def parseJMembers : Nat → Str → List (Str × Jv) → Option (Jv × Str)
  | 0, _, _ => none
  | fuel + 1, s, acc =>
    match skipWs s with
    | '"' :: rest =>
      match parseJStringBody rest with
      | some (k, r1) =>
        match skipWs r1 with
        | ':' :: r3 =>
          match parseJv fuel r3 with
          | some (v, r4) =>
            match skipWs r4 with
            | ',' :: r6 => parseJMembers fuel r6 (acc ++ [(k, v)])
            | '\x7d' :: r6 => some (.jobj (acc ++ [(k, v)]), r6)
            | _ => none
          | none => none
        | _ => none
      | none => none
    | _ => none

/-- Array parser, entered after the opening bracket. -/
def parseJArr : Nat → Str → Option (Jv × Str)
  | 0, _ => none
  | fuel + 1, s =>
    match skipWs s with
    | ']' :: rest => some (.jarr [], rest)
    | s1 => parseJElems fuel s1 []

/-- Array element list parser. -/
def parseJElems : Nat → Str → List Jv → Option (Jv × Str)
  | 0, _, _ => none
  | fuel + 1, s, acc =>
    match parseJv fuel s with
    | some (v, r1) =>
      match skipWs r1 with
      | ',' :: r3 => parseJElems fuel r3 (acc ++ [v])
      | ']' :: r3 => some (.jarr (acc ++ [v]), r3)
      | _ => none
    | none => none

end

/-- Look up a field of a parsed JSON object the way serde's derived
deserializer does: missing and duplicate occurrences both fail. -/
def getJField (fields : List (Str × Jv)) (key : Str) : Option Jv :=
  match fields.filter (fun f => decide (f.1 = key)) with
  | [f] => some f.2
  | _ => none

/-- A JSON string value. -/
def jvAsStr : Jv → Option Str
  | .jstr v => some v
  | _ => none

/-- A JSON array of strings (serde `Vec<String>`). -/
def jvAsStrList : Jv → Option (List Str)
  | .jarr xs => xs.mapM jvAsStr
  | _ => none

/-- A JSON array of arrays of strings (serde `Vec<Vec<String>>`). -/
def jvAsStrListList : Jv → Option (List (List Str))
  | .jarr xs => xs.mapM jvAsStrList
  | _ => none

/-- serde `TableSpec`: an object with `headers` and `rows` fields. -/
def jvAsTable : Jv → Option TableSpec
  | .jobj fields =>
    match getJField fields ("headers".data), getJField fields ("rows".data) with
    | some hv, some rv =>
      match jvAsStrList hv, jvAsStrListList rv with
      | some hs, some rws => some ⟨hs, rws⟩
      | _, _ => none
    | _, _ => none
  | _ => none

/-- Model of `serde_json::from_str::<FileIntent>`: parse one JSON value, allow
only trailing whitespace, and read the `output_format` (string) and `table`
fields of the top-level object. -/
def parseFileIntent (s : Str) : Option (Str × TableSpec) :=
  match parseJv (2 * s.length + 4) s with
  | some (v, rest) =>
    if skipWs rest = [] then
      match v with
      | .jobj fields =>
        match getJField fields ("output_format".data) with
        | some ofv =>
          match jvAsStr ofv with
          | some fmt =>
            match getJField fields ("table".data) with
            | some tv =>
              match jvAsTable tv with
              | some table => some (fmt, table)
              | none => none
            | none => none
          | none => none
        | none => none
      | _ => none
    else none
  | none => none

/-- Rust `str::find` for a pattern: index of the first occurrence. -/
def findSub (pat : Str) : Str → Option Nat
  | [] => if startsWithStr [] pat then some 0 else none
  | c :: rest =>
    if startsWithStr (c :: rest) pat then some 0
    else (findSub pat rest).map (fun i => i + 1)

/-- Rust `str::rfind` for a character: index of the last occurrence. -/
def rfindCharAux (c : Char) : Str → Nat → Option Nat
  | [], _ => none
  | x :: xs, i =>
    match rfindCharAux c xs (i + 1) with
    | some j => some j
    | none => if x = c then some i else none

/-- Index of the last occurrence of `c` in `s`. -/
def rfindChar (s : Str) (c : Char) : Option Nat := rfindCharAux c s 0

/-- One iteration of `extract_file_intent`'s fenced-block loop: find the
marker, take the text up to the next triple-backtick fence, trim it and try
the JSON parse. -/
def try_fence (text : Str) (marker : Str) : Option (Str × TableSpec) :=
  match findSub marker text with
  | some start_idx =>
    let after_marker := text.drop (start_idx + marker.length)
    match findSub ("```".data) after_marker with
    | some end_idx => parseFileIntent (trimStr (after_marker.take end_idx))
    | none => none
  | none => none

/-- Embedding of `extract_file_intent` (handlers/chat.rs): try a
`json`-tagged fence, then a bare fence, then the span between the output of
`text.rfind('\x7b')` and `text.rfind('\x7d')` — the last opening brace and the
last closing brace. -/
def extract_file_intent (text : Str) : Option (Str × TableSpec) :=
  match try_fence text ("```json".data) with
  | some intent => some intent
  | none =>
    match try_fence text ("```".data) with
    | some intent => some intent
    | none =>
      match rfindChar text '\x7b', rfindChar text '\x7d' with
      | some start, some stop =>
        if start < stop then
          match parseFileIntent ((text.drop start).take (stop - start + 1)) with
          | some intent => some intent
          | none => none
        else none
      | _, _ => none

/-- Modelled from the original claim C5's words (for the counterexample): the
span from the first `\x7b` of the text to the last `\x7d`, parsed as a
`FileIntent`. -/
def claimed_second_fallback (text : Str) : Option (Str × TableSpec) :=
  match findSub ['\x7b'] text, rfindChar text '\x7d' with
  | some start, some stop =>
    if start < stop then parseFileIntent ((text.drop start).take (stop - start + 1))
    else none
  | _, _ => none

/-- Modelled from the amended claim: the span from the last `\x7b` to the last
`\x7d`, parsed as a `FileIntent`. -/
def last_brace_fallback (text : Str) : Option (Str × TableSpec) :=
  match rfindChar text '\x7b', rfindChar text '\x7d' with
  | some start, some stop =>
    if start < stop then parseFileIntent ((text.drop start).take (stop - start + 1))
    else none
  | _, _ => none

/-- A sequence of context updates applied through the upsert. -/
def applyContextUpdates (updates : List (Str × ContextFilters)) (tbl : List (Str × CtxRow)) :
    List (Str × CtxRow) :=
  updates.foldl (fun t u => save_conversation_context t u.1 u.2) tbl

/-- A database with one account whose Telegram handle is the digit string
`12345` and no `telegram_users` rows at all. -/
def c1db : Db :=
  { users := [{ id := "u1".data, telegram_username := some ("12345".data) }],
    telegram_users := [], conversations := [], conversation_context := [] }

/-- Advisor text whose only valid JSON directive spans from the first opening
brace to the last closing brace; the last opening brace starts the nested
`table` object. -/
def c5cex : Str :=
  ("see \x7b\"output_format\":\"csv\",\"table\":\x7b\"headers\":[\"A\"],\"rows\":[[\"1\"]]\x7d\x7d").data

/-- A database with one conversation whose context row has a null `user_role`
but a non-null `goal`. -/
def c8db : Db :=
  { users := [{ id := "u".data, telegram_username := none }],
    telegram_users := [],
    conversations := [⟨"c1".data, "u".data, none, 5⟩],
    conversation_context := [("c1".data, ⟨none, none, some ("g".data), none, none, none⟩)] }

end AlphaChat

namespace AlphaChat

/-- C2: `mergeContext` resolves each of the six fields independently with
precedence filters > conversation > base; a layer's field overwrites the
accumulated value only when non-null, and absent fields never clear a
previously set value (hence disjoint layers merge to the union of their
fields). -/
theorem merge_contexts_field_precedence (base : ConversationContext)
    (conversation : Option ConversationContext) (filters : Option ContextFilters) :
    (merge_contexts base conversation filters).user_role
      = layerPick (filters.bind ContextFilters.user_role)
          (conversation.bind ConversationContext.user_role) base.user_role
    ∧ (merge_contexts base conversation filters).business_stage
      = layerPick (filters.bind ContextFilters.business_stage)
          (conversation.bind ConversationContext.business_stage) base.business_stage
    ∧ (merge_contexts base conversation filters).goal
      = layerPick (filters.bind ContextFilters.goal)
          (conversation.bind ConversationContext.goal) base.goal
    ∧ (merge_contexts base conversation filters).urgency
      = layerPick (filters.bind ContextFilters.urgency)
          (conversation.bind ConversationContext.urgency) base.urgency
    ∧ (merge_contexts base conversation filters).region
      = layerPick (filters.bind ContextFilters.region)
          (conversation.bind ConversationContext.region) base.region
    ∧ (merge_contexts base conversation filters).business_niche
      = layerPick (filters.bind ContextFilters.business_niche)
          (conversation.bind ConversationContext.business_niche) base.business_niche := by
  rcases conversation with _ | conv <;> rcases filters with _ | f <;>
    exact ⟨rfl, rfl, rfl, rfl, rfl, rfl⟩

/-- C3: on the advisor output with a `TITLE:` marker, a blank line, prose and
a two-column markdown table, the extractor yields title `Tax tips`, strips the
marker and blank line from the body, and the markdown-table fallback recovers
headers `A`,`B` with the single row `1`,`2`. -/
theorem title_and_table_scenario :
    extract_title_and_body
        (("TITLE: Tax tips\n\nHere\x27s advice:\n| A | B |\n|---|---|\n| 1 | 2 |").data)
      = (some ("Tax tips".data), ("Here\x27s advice:\n| A | B |\n|---|---|\n| 1 | 2 |").data)
    ∧ parse_markdown_table (("Here\x27s advice:\n| A | B |\n|---|---|\n| 1 | 2 |").data)
      = some ⟨["A".data, "B".data], [["1".data, "2".data]]⟩ := by
  decide

/-- C4 counterexample: the claim's reading (first contiguous run of lines that
start and end with a pipe, empty edge tokens dropped, no data row ever
rejected) predicts that the run stops at the `| x` line and hence produces no
table, while the code skips that line without ending the run, drops the
all-empty row, and truncates the four-cell row to the two headers. -/
theorem markdown_table_counterexample :
    parse_markdown_table (("| A |  | B |\n|---|---|\n| x\n| | |\n| 1 | 2 | 3 | 4 |").data)
      = some ⟨["A".data, "B".data], [["1".data, "2".data]]⟩
    ∧ parse_markdown_table_claimed
        (("| A |  | B |\n|---|---|\n| x\n| | |\n| 1 | 2 | 3 | 4 |").data)
      = none := by
  decide

/-- A line that starts and ends with a pipe in particular starts with one. -/
theorem startsPipe_of_fullPipe {s : Str} (h : fullPipe s = true) : startsPipe s = true := by
  have := h
  simp only [fullPipe, Bool.and_eq_true] at this
  exact this.1

/-- Once inside a table, the collection loop keeps exactly the full-pipe lines
of the longest following stretch of pipe-starting lines. -/
theorem collectTableLines_true_eq (ls : List Str) :
    collectTableLines ls true
      = ((ls.takeWhile fun l => startsPipe (trimStr l)).filter
          fun l => fullPipe (trimStr l)).map trimStr := by
  induction ls with
  | nil => rfl
  | cons l rest ih =>
    cases hf : fullPipe (trimStr l)
    · cases hs : startsPipe (trimStr l)
      · simp [collectTableLines, hf, hs, List.takeWhile_cons]
      · simp [collectTableLines, hf, hs, List.takeWhile_cons, List.filter_cons, ih]
    · have hs := startsPipe_of_fullPipe hf
      simp [collectTableLines, hf, hs, List.takeWhile_cons, List.filter_cons, ih]

/-- The full collection loop, started outside a table, computes exactly the
amended claim's scanned region. -/
theorem collectTableLines_false_eq (ls : List Str) :
    collectTableLines ls false = specTableRegion ls := by
  induction ls with
  | nil => rfl
  | cons l rest ih =>
    cases hf : fullPipe (trimStr l)
    · simp [collectTableLines, hf, specTableRegion, List.dropWhile_cons, ih]
    · simp [collectTableLines, hf, specTableRegion, List.dropWhile_cons,
        collectTableLines_true_eq]

/-- The data-row loop of `parse_markdown_table` (push if the cell count
matches, else pad / truncate if non-empty, else skip) appends exactly the
filter-mapped rows of the amended claim's description. -/
theorem rows_loop_eq_filterMap (hl : Nat) (hl0 : hl ≠ 0) :
    ∀ (rest : List Str) (acc : List (List Str)),
      rest.foldl (fun rows line =>
        let cells := splitCells line
        if cells.length = hl then rows ++ [cells]
        else if 0 < cells.length then
          rows ++ [(cells ++ List.replicate (hl - cells.length) []).take hl]
        else rows) acc
      = acc ++ rest.filterMap (fun line =>
          let cells := splitCells line
          if cells = [] then none
          else some ((cells ++ List.replicate (hl - cells.length) []).take hl)) := by
  intro rest
  induction rest with
  | nil => intro acc; simp
  | cons x xs ih =>
    intro acc
    by_cases hc : splitCells x = []
    · simp [List.foldl_cons, List.filterMap_cons, hc, Ne.symm hl0, ih]
    · by_cases he : (splitCells x).length = hl
      · have hid : ((splitCells x ++ List.replicate (hl - (splitCells x).length) []).take hl)
            = splitCells x := by
          rw [he, Nat.sub_self, List.replicate_zero, List.append_nil, ← he, List.take_length]
        simp [List.foldl_cons, List.filterMap_cons, hc, he, ih, hid]
      · have hpos : 0 < (splitCells x).length := List.length_pos.mpr hc
        simp [List.foldl_cons, List.filterMap_cons, hc, he, hpos, ih]

/-- C4 (amended): `parse_markdown_table` coincides, on every input text, with
the amended claim's description — scanned region per `specTableRegion`,
headers with all empty tokens dropped, rows with no non-empty cell dropped,
and all other rows padded or truncated to the header count. -/
theorem parse_markdown_table_eq_amended (text : Str) :
    parse_markdown_table text = parse_markdown_table_amended text := by
  have hcol := collectTableLines_false_eq (rustLines text)
  rcases hspec : specTableRegion (rustLines text) with _ | ⟨a, _ | ⟨b, rest⟩⟩
  · simp [parse_markdown_table, parse_markdown_table_amended, hcol, hspec]
  · simp [parse_markdown_table, parse_markdown_table_amended, hcol, hspec]
  · simp only [parse_markdown_table, parse_markdown_table_amended, hcol, hspec]
    simp only [List.length_cons, List.headD_cons, List.drop_succ_cons, List.drop_zero]
    have hlen : ¬ (rest.length + 1 + 1 < 2) := by omega
    simp only [hlen, if_false]
    by_cases hh : splitCells a = []
    · simp [hh]
    · simp only [hh, if_false]
      have hl0 : (splitCells a).length ≠ 0 := by
        simpa [List.length_eq_zero] using hh
      rw [rows_loop_eq_filterMap (splitCells a).length hl0 rest []]
      simp

end AlphaChat

namespace AlphaChat

/-- C1 counterexample: the identifier `12345` is numeric, is no account id,
and no `telegram_users` row exists, yet resolution does not fall back to the
original identifier — the final handle lookup matches the account whose
`telegram_username` is the digit string `12345` and returns `u1`. -/
theorem resolve_identity_counterexample :
    (parseI64 ("12345".data)).isSome = true
    ∧ (∀ u ∈ c1db.users, u.id ≠ "12345".data)
    ∧ c1db.telegram_users = []
    ∧ resolve_user_id_for_conversations c1db ("12345".data) = "u1".data
    ∧ "u1".data ≠ "12345".data := by
  decide

/-- C1 (amended): for a numeric inbound identifier that is no account id,
with no `SecondaryIdentity` record at all and no account whose handle equals
the identifier, resolution returns the identifier unchanged. -/
theorem resolve_identity_numeric_fallback (db : Db) (user_id : Str) (n : Int)
    (hnum : parseI64 user_id = some n)
    (hacct : ∀ u ∈ db.users, u.id ≠ user_id)
    (hsec : db.telegram_users = [])
    (hhandle : ∀ u ∈ db.users, u.telegram_username ≠ some user_id) :
    resolve_user_id_for_conversations db user_id = user_id := by
  have hfu : db.users.filter (fun u => decide (u.id = user_id)) = [] := by
    rw [List.filter_eq_nil_iff]
    intro u hu
    simpa using hacct u hu
  have hfh : db.users.filter (fun u => decide (u.telegram_username = some user_id)) = [] := by
    rw [List.filter_eq_nil_iff]
    intro u hu
    simpa using hhandle u hu
  simp [resolve_user_id_for_conversations, hfu, hfh, hsec, hnum]

/-- Witness for the amended C1 theorem on the empty database. -/
theorem resolve_identity_numeric_fallback_witness :
    parseI64 ("12345".data) = some 12345
    ∧ resolve_user_id_for_conversations ⟨[], [], [], []⟩ ("12345".data) = "12345".data :=
  ⟨by decide,
   resolve_identity_numeric_fallback ⟨[], [], [], []⟩ ("12345".data) 12345 (by decide)
     (by decide) rfl (by decide)⟩

/-- C5 counterexample: with no fenced block present, the span from the first
opening brace to the last closing brace parses successfully as a directive,
yet `extract_file_intent` returns nothing, because the code slices from the
last opening brace (`rfind`), which yields a span with a trailing brace that
fails to parse. -/
theorem file_intent_counterexample :
    extract_file_intent c5cex = none
    ∧ claimed_second_fallback c5cex
        = some ("csv".data, ⟨["A".data], [["1".data]]⟩) := by
  decide

/-- C5 (amended): whenever neither fenced-block attempt yields a directive,
`extract_file_intent` behaves exactly as the last-opening-brace fallback: it
parses the span from the last `\x7b` to the last `\x7d` and returns the
directive exactly when that span parses. -/
theorem extract_file_intent_uses_last_brace (text : Str)
    (h1 : try_fence text ("```json".data) = none)
    (h2 : try_fence text ("```".data) = none) :
    extract_file_intent text = last_brace_fallback text := by
  unfold extract_file_intent last_brace_fallback
  rw [h1, h2]
  cases hs : rfindChar text '\x7b' with
  | none => rfl
  | some start =>
    cases he : rfindChar text '\x7d' with
    | none => rfl
    | some stop =>
      by_cases hlt : start < stop
      · simp only [hlt, if_true]
        cases parseFileIntent ((text.drop start).take (stop - start + 1)) <;> rfl
      · simp only [hlt, if_false]

/-- Witness for the amended C5 theorem on a brace-free text. -/
theorem extract_file_intent_uses_last_brace_witness :
    try_fence ("no braces at all".data) ("```json".data) = none
    ∧ extract_file_intent ("no braces at all".data)
        = last_brace_fallback ("no braces at all".data) :=
  ⟨by decide,
   extract_file_intent_uses_last_brace ("no braces at all".data) (by decide) (by decide)⟩

end AlphaChat

namespace AlphaChat

/-- Taking the first 80 characters of a non-empty string is non-empty. -/
theorem take80_ne_nil (l : Str) (h : l ≠ []) : l.take 80 ≠ [] := by
  cases l with
  | nil => exact absurd rfl h
  | cons a l2 =>
    rw [show (80 : Nat) = 79 + 1 from rfl, List.take_succ_cons]
    simp

/-- A title produced by the `TITLE:` marker branch is never empty. -/
theorem extract_title_nonempty (raw t : Str) (h : (extract_title_and_body raw).1 = some t) :
    t ≠ [] := by
  unfold extract_title_and_body at h
  rcases hl : rustLines raw with _ | ⟨first, rest⟩ <;> rw [hl] at h
  · simp at h
  · by_cases hs : startsWithStr (trimStr first) ("TITLE:".data) = true
    · simp only [hs, if_true] at h
      by_cases h0 : trimStr ((trimStr first).drop 6) = []
      · rcases rest with _ | ⟨second, rest2⟩ <;> simp [h0] at h
        by_cases hb : trimStr second = [] <;> simp [hb] at h
      · have hx : t = (trimStr ((trimStr first).drop 6)).take 80 := by
          rcases rest with _ | ⟨second, rest2⟩
          · simp [h0] at h
            exact h.symm
          · by_cases hb : trimStr second = [] <;> simp [hb, h0] at h <;> exact h.symm
        rw [hx]
        exact take80_ne_nil _ h0
    · simp only [Bool.not_eq_true] at hs
      simp [hs] at h

/-- A derived title (marker branch or first-non-blank-line fallback) is never
empty. -/
theorem derived_title_nonempty (raw t : Str) (h : derived_title raw = some t) : t ≠ [] := by
  simp only [derived_title] at h
  cases hx : (extract_title_and_body raw).1 with
  | some t0 =>
    rw [hx] at h
    have ht : t = t0 := by
      injection h with h2
      exact h2.symm
    rw [ht]
    exact extract_title_nonempty raw t0 hx
  | none =>
    rw [hx] at h
    split_ifs at h with hf
    injection h with h2
    subst h2
    exact take80_ne_nil _ hf

/-- C6: the conversation-title state machine.  A derived title is never
empty; the automatic derive-and-set update leaves a conversation with a
non-empty title untouched (so the automatic transition fires at most once)
and never clears a title; the explicit rename unconditionally overwrites the
title of the matching conversation, including to null; and the rename
endpoint updates exactly by mapping that per-row overwrite. -/
theorem conversation_title_state_machine (convs : List Conversation) (cid uid raw : Str)
    (topt : Option Str) (c : Conversation) :
    (∀ t, derived_title raw = some t → t ≠ [])
    ∧ (∀ t s, c.title = some s → s ≠ [] → apply_auto_title cid t c = c)
    ∧ (∀ t, (apply_auto_title cid t c).title = none → c.title = none)
    ∧ (c.id = cid → c.user_id = uid → (apply_rename cid uid topt c).title = topt)
    ∧ (update_conversation_title convs cid uid topt).1 = convs.map (apply_rename cid uid topt) := by
  refine ⟨fun t ht => derived_title_nonempty raw t ht, ?_, ?_, ?_, rfl⟩
  · intro t s hs hne
    unfold apply_auto_title
    rw [if_neg]
    rintro ⟨-, h | h⟩ <;> rw [hs] at h
    · cases h
    · exact hne (Option.some.inj h)
  · intro t h
    by_cases hcond : c.id = cid ∧ (c.title = none ∨ c.title = some [])
    · rw [apply_auto_title, if_pos hcond] at h
      exact Option.noConfusion h
    · rw [apply_auto_title, if_neg hcond] at h
      exact h
  · intro h1 h2
    simp [apply_rename, h1, h2]

/-- Witness for C6 on a concrete titled conversation: the automatic path
leaves the title `Old` unchanged, while an explicit rename to null clears
it. -/
theorem conversation_title_state_machine_witness :
    apply_auto_title ("c1".data) ("T".data) ⟨"c1".data, "u".data, some ("Old".data), 0⟩
      = ⟨"c1".data, "u".data, some ("Old".data), 0⟩
    ∧ (apply_rename ("c1".data) ("u".data) none
        ⟨"c1".data, "u".data, some ("Old".data), 0⟩).title = none :=
  ⟨(conversation_title_state_machine [] ("c1".data) ("u".data) [] none
      ⟨"c1".data, "u".data, some ("Old".data), 0⟩).2.1 ("T".data) ("Old".data) rfl (by decide),
   (conversation_title_state_machine [] ("c1".data) ("u".data) [] none
      ⟨"c1".data, "u".data, some ("Old".data), 0⟩).2.2.2.1 rfl rfl⟩

end AlphaChat

namespace AlphaChat

/-- The update arm of the upsert rewrites values but never keys, and the
insert arm adds a key that was absent, so distinct keys stay distinct. -/
theorem save_context_keysNodup (tbl : List (Str × CtxRow)) (cid : Str) (f : ContextFilters)
    (h : keysNodup tbl) : keysNodup (save_conversation_context tbl cid f) := by
  unfold save_conversation_context
  by_cases ha : tbl.any (fun r => decide (r.1 = cid)) = true
  · rw [if_pos ha]
    unfold keysNodup
    rw [List.map_map,
      show (Prod.fst ∘ fun r : Str × CtxRow => if r.1 = cid then (r.1, r.2.coalesce f) else r)
        = Prod.fst from funext fun r => by by_cases hr : r.1 = cid <;> simp [hr]]
    exact h
  · rw [if_neg ha]
    unfold keysNodup at h ⊢
    rw [List.map_append, List.nodup_append]
    refine ⟨h, by simp, ?_⟩
    intro a ha1 ha2
    simp only [List.map_cons, List.map_nil, List.mem_singleton] at ha2
    subst ha2
    simp only [List.any_eq_true, decide_eq_true_eq, not_exists, not_and] at ha
    obtain ⟨r, hr, hfst⟩ := List.mem_map.mp ha1
    exact ha r hr hfst

/-- Any sequence of upserts preserves the one-row-per-conversation
invariant. -/
theorem applyContextUpdates_keysNodup (updates : List (Str × ContextFilters)) :
    ∀ tbl, keysNodup tbl → keysNodup (applyContextUpdates updates tbl) := by
  induction updates with
  | nil => intro tbl h; exact h
  | cons u us ih =>
    intro tbl h
    have hstep : applyContextUpdates (u :: us) tbl
        = applyContextUpdates us (save_conversation_context tbl u.1 u.2) := rfl
    rw [hstep]
    exact ih _ (save_context_keysNodup tbl u.1 u.2 h)

/-- When no row with the key exists, the upsert inserts a fresh row carrying
exactly the provided fields. -/
theorem filter_head_append_new (tbl : List (Str × CtxRow)) (cid : Str) (f : ContextFilters)
    (h : (tbl.filter (fun r => decide (r.1 = cid))).head? = none) :
    ((save_conversation_context tbl cid f).filter (fun r => decide (r.1 = cid))).head?
      = some (cid, CtxRow.ofFilters f) := by
  have hnil : tbl.filter (fun r => decide (r.1 = cid)) = [] := by
    cases hcase : tbl.filter (fun r => decide (r.1 = cid)) with
    | nil => rfl
    | cons a t => rw [hcase] at h; cases h
  have hany : ¬ tbl.any (fun r => decide (r.1 = cid)) = true := by
    simp only [List.any_eq_true, decide_eq_true_eq, not_exists, not_and]
    intro r hr
    simpa using List.filter_eq_nil_iff.mp hnil r hr
  unfold save_conversation_context
  rw [if_neg hany, List.filter_append, hnil]
  simp

/-- The update arm coalesces the first (hence, under the key invariant, the
only) row with the key. -/
theorem map_coalesce_filter_head (cid : Str) (f : ContextFilters) :
    ∀ (tbl : List (Str × CtxRow)) (p : Str × CtxRow),
      (tbl.filter (fun r => decide (r.1 = cid))).head? = some p →
      ((tbl.map (fun r => if r.1 = cid then (r.1, r.2.coalesce f) else r)).filter
        (fun r => decide (r.1 = cid))).head? = some (p.1, p.2.coalesce f) := by
  intro tbl
  induction tbl with
  | nil => intro p h; cases h
  | cons a rest ih =>
    intro p h
    by_cases hr : a.1 = cid
    · have hd : (decide (a.1 = cid)) = true := decide_eq_true hr
      rw [List.filter_cons, hd] at h
      simp only [if_true, List.head?_cons] at h
      injection h with h2
      subst h2
      simp [List.map_cons, List.filter_cons, hr]
    · have hd : (decide (a.1 = cid)) = false := decide_eq_false hr
      rw [List.filter_cons, hd] at h
      simp only [Bool.false_eq_true, if_false] at h
      simp only [List.map_cons, List.filter_cons, if_neg hr, hd, Bool.false_eq_true, if_false]
      exact ih p h

/-- On an existing key, the upsert leaves the key in place and coalesces the
stored fields. -/
theorem filter_head_coalesce (tbl : List (Str × CtxRow)) (cid : Str) (f : ContextFilters)
    (p : Str × CtxRow)
    (h : (tbl.filter (fun r => decide (r.1 = cid))).head? = some p) :
    ((save_conversation_context tbl cid f).filter (fun r => decide (r.1 = cid))).head?
      = some (p.1, p.2.coalesce f) := by
  have hmem : p ∈ tbl.filter (fun r => decide (r.1 = cid)) := by
    cases hcase : tbl.filter (fun r => decide (r.1 = cid)) with
    | nil => rw [hcase] at h; cases h
    | cons a t =>
      rw [hcase] at h
      injection h with h2
      rw [← h2]
      exact List.mem_cons_self a t
  have hp := List.mem_filter.mp hmem
  have hany : tbl.any (fun r => decide (r.1 = cid)) = true :=
    List.any_eq_true.mpr ⟨p, hp.1, hp.2⟩
  unfold save_conversation_context
  rw [if_pos hany]
  exact map_coalesce_filter_head cid f tbl p h

end AlphaChat

namespace AlphaChat

/-- C7: the context upsert is per-field set-if-provided: after any sequence of
updates at most one context row per conversation exists; a missing row is
inserted with exactly the provided fields; an existing row has each of its six
fields overwritten exactly when the incoming filter field is non-null and kept
otherwise — omission never clears. -/
theorem save_context_upsert_spec (tbl : List (Str × CtxRow)) (cid : Str) (f : ContextFilters) :
    (keysNodup tbl → keysNodup (save_conversation_context tbl cid f))
    ∧ (∀ updates, keysNodup tbl → keysNodup (applyContextUpdates updates tbl))
    ∧ ((tbl.filter (fun r => decide (r.1 = cid))).head? = none →
        ((save_conversation_context tbl cid f).filter (fun r => decide (r.1 = cid))).head?
          = some (cid, CtxRow.ofFilters f))
    ∧ (∀ p, (tbl.filter (fun r => decide (r.1 = cid))).head? = some p →
        ((save_conversation_context tbl cid f).filter (fun r => decide (r.1 = cid))).head?
          = some (p.1, p.2.coalesce f))
    ∧ (∀ row : CtxRow,
        (f.user_role = none → (row.coalesce f).user_role = row.user_role)
        ∧ (∀ v, f.user_role = some v → (row.coalesce f).user_role = some v)
        ∧ (f.business_stage = none → (row.coalesce f).business_stage = row.business_stage)
        ∧ (∀ v, f.business_stage = some v → (row.coalesce f).business_stage = some v)
        ∧ (f.goal = none → (row.coalesce f).goal = row.goal)
        ∧ (∀ v, f.goal = some v → (row.coalesce f).goal = some v)
        ∧ (f.urgency = none → (row.coalesce f).urgency = row.urgency)
        ∧ (∀ v, f.urgency = some v → (row.coalesce f).urgency = some v)
        ∧ (f.region = none → (row.coalesce f).region = row.region)
        ∧ (∀ v, f.region = some v → (row.coalesce f).region = some v)
        ∧ (f.business_niche = none → (row.coalesce f).business_niche = row.business_niche)
        ∧ (∀ v, f.business_niche = some v → (row.coalesce f).business_niche = some v)) := by
  refine ⟨save_context_keysNodup tbl cid f,
    fun updates => applyContextUpdates_keysNodup updates tbl,
    filter_head_append_new tbl cid f,
    filter_head_coalesce tbl cid f,
    fun row => ?_⟩
  refine ⟨fun h => ?_, fun v h => ?_, fun h => ?_, fun v h => ?_, fun h => ?_, fun v h => ?_,
    fun h => ?_, fun v h => ?_, fun h => ?_, fun v h => ?_, fun h => ?_, fun v h => ?_⟩ <;>
    simp [CtxRow.coalesce, h]

/-- Witness for C7: one upsert into the empty table keeps keys unique and
inserts the provided row. -/
theorem save_context_upsert_spec_witness :
    keysNodup (save_conversation_context [] ("c1".data)
      ⟨some ("r".data), none, none, none, none, none⟩)
    ∧ ((save_conversation_context [] ("c1".data)
        ⟨some ("r".data), none, none, none, none, none⟩).filter
          (fun r => decide (r.1 = "c1".data))).head?
      = some ("c1".data, CtxRow.ofFilters ⟨some ("r".data), none, none, none, none, none⟩) :=
  ⟨(save_context_upsert_spec [] ("c1".data) ⟨some ("r".data), none, none, none, none, none⟩).1
      (by decide),
   (save_context_upsert_spec [] ("c1".data)
      ⟨some ("r".data), none, none, none, none, none⟩).2.2.1 rfl⟩

end AlphaChat

namespace AlphaChat

/-- C9: the resolve-or-create step reuses the supplied conversation id exactly
when a conversation with that id and the resolved owner exists — leaving the
database, and in particular the stored context, untouched — and otherwise
creates a fresh conversation with null title owned by the resolved account,
persisting the initial context filters exactly when they are given. -/
theorem get_or_create_conversation_spec (db : Db) (resolved : Str) (cidOpt : Option Str)
    (filters : Option ContextFilters) (newId : Str) (now : Nat) :
    (∀ cid, cidOpt = some cid →
      (∃ c ∈ db.conversations, c.id = cid ∧ c.user_id = resolved) →
      get_or_create_conversation db resolved cidOpt filters newId now = (cid, db))
    ∧ (∀ cid, cidOpt = some cid →
      ¬ (∃ c ∈ db.conversations, c.id = cid ∧ c.user_id = resolved) →
      get_or_create_conversation db resolved cidOpt filters newId now
        = create_new_conversation db resolved filters newId now)
    ∧ (cidOpt = none →
      get_or_create_conversation db resolved cidOpt filters newId now
        = create_new_conversation db resolved filters newId now)
    ∧ (create_new_conversation db resolved filters newId now).1 = newId
    ∧ (create_new_conversation db resolved filters newId now).2.conversations
        = db.conversations ++ [⟨newId, resolved, none, now⟩]
    ∧ (∀ fs, filters = some fs →
        (create_new_conversation db resolved filters newId now).2.conversation_context
          = save_conversation_context db.conversation_context newId fs)
    ∧ (filters = none →
        (create_new_conversation db resolved filters newId now).2.conversation_context
          = db.conversation_context) := by
  refine ⟨?_, ?_, ?_, ?_, ?_, ?_, ?_⟩
  · intro cid hc hex
    subst hc
    have hany : db.conversations.any
        (fun c => decide (c.id = cid ∧ c.user_id = resolved)) = true := by
      rw [List.any_eq_true]
      obtain ⟨c, hc1, hc2⟩ := hex
      exact ⟨c, hc1, decide_eq_true hc2⟩
    show (if (db.conversations.any
        (fun c => decide (c.id = cid ∧ c.user_id = resolved))) = true then (cid, db)
      else create_new_conversation db resolved filters newId now) = (cid, db)
    rw [if_pos hany]
  · intro cid hc hex
    subst hc
    have hany : ¬ db.conversations.any
        (fun c => decide (c.id = cid ∧ c.user_id = resolved)) = true := by
      rw [List.any_eq_true]
      rintro ⟨c, hc1, hc2⟩
      exact hex ⟨c, hc1, of_decide_eq_true hc2⟩
    show (if (db.conversations.any
        (fun c => decide (c.id = cid ∧ c.user_id = resolved))) = true then (cid, db)
      else create_new_conversation db resolved filters newId now)
      = create_new_conversation db resolved filters newId now
    rw [if_neg hany]
  · intro hc
    subst hc
    rfl
  · rfl
  · cases filters <;> rfl
  · intro fs hf
    subst hf
    rfl
  · intro hf
    subst hf
    rfl

/-- Witness for C9: with a matching owned conversation, the id is reused and
the database is unchanged. -/
theorem get_or_create_conversation_spec_witness :
    get_or_create_conversation
        ⟨[], [], [⟨"c1".data, "u".data, none, 3⟩], []⟩ ("u".data)
        (some ("c1".data)) none ("n".data) 9
      = ("c1".data, ⟨[], [], [⟨"c1".data, "u".data, none, 3⟩], []⟩) :=
  (get_or_create_conversation_spec ⟨[], [], [⟨"c1".data, "u".data, none, 3⟩], []⟩ ("u".data)
      (some ("c1".data)) none ("n".data) 9).1 ("c1".data) rfl (by decide)

/-- C10: the explicit context update checks only that a conversation with the
given id exists — the operation takes no account identity at all — applying
the upsert and reporting success for every existing conversation, and
reporting not-found exactly when no conversation with that id exists. -/
theorem update_context_existence_only (db : Db) (cid : Str) (f : ContextFilters) :
    ((∃ c ∈ db.conversations, c.id = cid) →
      update_conversation_context db cid f
        = (UpdateContextResult.ok,
           { db with conversation_context :=
               save_conversation_context db.conversation_context cid f }))
    ∧ (¬ (∃ c ∈ db.conversations, c.id = cid) →
      update_conversation_context db cid f = (UpdateContextResult.notFound, db)) := by
  constructor
  · intro hex
    have hany : db.conversations.any (fun c => decide (c.id = cid)) = true := by
      rw [List.any_eq_true]
      obtain ⟨c, h1, h2⟩ := hex
      exact ⟨c, h1, decide_eq_true h2⟩
    simp [update_conversation_context, hany]
  · intro hex
    have hany : ¬ db.conversations.any (fun c => decide (c.id = cid)) = true := by
      rw [List.any_eq_true]
      rintro ⟨c, h1, h2⟩
      exact hex ⟨c, h1, of_decide_eq_true h2⟩
    simp [update_conversation_context, hany]

/-- Witness for C10: a conversation owned by `alice` is updated successfully
by a request carrying no account identity. -/
theorem update_context_existence_only_witness :
    update_conversation_context
        ⟨[], [], [⟨"c1".data, "alice".data, none, 0⟩], []⟩ ("c1".data)
        ⟨none, none, some ("g".data), none, none, none⟩
      = (UpdateContextResult.ok,
         ⟨[], [], [⟨"c1".data, "alice".data, none, 0⟩],
          [("c1".data, ⟨none, none, some ("g".data), none, none, none⟩)]⟩) := by
  have h := (update_context_existence_only
      ⟨[], [], [⟨"c1".data, "alice".data, none, 0⟩], []⟩ ("c1".data)
      ⟨none, none, some ("g".data), none, none, none⟩).1 ⟨_, List.mem_cons_self _ _, rfl⟩
  rw [h]
  rfl

end AlphaChat

namespace AlphaChat

/-- C8 counterexample: a context row exists for conversation `c1` (it has a
non-null `goal`), yet the listing carries no context, because the handler
keys context presence on the joined `user_role` column being non-null. -/
theorem list_context_counterexample :
    (list_conversations c8db ("u".data)).map ConversationSummary.context = [none]
    ∧ (c8db.conversation_context.any (fun r => decide (r.1 = "c1".data))) = true := by
  decide

/-- Under unique keys, the row containing a present key is the head of the
filtered table. -/
theorem head_filter_of_mem_nodup :
    ∀ (tbl : List (Str × CtxRow)), keysNodup tbl →
      ∀ r ∈ tbl, ∀ k, r.1 = k →
        (tbl.filter (fun x => decide (x.1 = k))).head? = some r := by
  intro tbl
  induction tbl with
  | nil =>
    intro _ r hr
    cases hr
  | cons a rest ih =>
    intro h r hr k hk
    unfold keysNodup at h
    rw [List.map_cons] at h
    have hnd := List.nodup_cons.mp h
    rcases List.mem_cons.mp hr with h0 | hr2
    · subst h0
      have hd : decide (r.1 = k) = true := decide_eq_true hk
      rw [List.filter_cons, hd]
      simp
    · have hak : ¬ a.1 = k := by
        intro hak2
        apply hnd.1
        rw [hak2, ← hk]
        exact List.mem_map_of_mem Prod.fst hr2
      have hd : decide (a.1 = k) = false := decide_eq_false hak
      rw [List.filter_cons, hd]
      simp only [Bool.false_eq_true, if_false]
      exact ih hnd.2 r hr2 k hk

/-- The joined context of one listed conversation: present exactly when a
context row with the conversation's id and a non-null `user_role` exists, and
in that case carrying that row's fields. -/
theorem summarize_context_spec (db : Db) (hctx : keysNodup db.conversation_context)
    (c : Conversation) :
    ((summarize db c).context.isSome
        ↔ ∃ r ∈ db.conversation_context, r.1 = c.id ∧ r.2.user_role.isSome)
    ∧ (∀ r ∈ db.conversation_context, r.1 = c.id → r.2.user_role.isSome = true →
        (summarize db c).context = some (ConversationContext.ofRow r.2)) := by
  cases hh : (db.conversation_context.filter (fun x => decide (x.1 = c.id))).head? with
  | none =>
    have hnone : ∀ r ∈ db.conversation_context, ¬ r.1 = c.id := by
      intro r hr hk
      have hsome := head_filter_of_mem_nodup db.conversation_context hctx r hr c.id hk
      rw [hh] at hsome
      cases hsome
    have hcn : (summarize db c).context = none := by
      simp only [summarize, hh, Option.map_none']
    constructor
    · rw [hcn]
      apply iff_of_false (by simp)
      rintro ⟨r, hr, hk, -⟩
      exact hnone r hr hk
    · intro r hr hk _
      exact absurd hk (hnone r hr)
  | some p =>
    have hpf : p ∈ db.conversation_context.filter (fun x => decide (x.1 = c.id)) := by
      cases hcase : db.conversation_context.filter (fun x => decide (x.1 = c.id)) with
      | nil => rw [hcase] at hh; cases hh
      | cons q t =>
        rw [hcase] at hh
        injection hh with h2
        rw [← h2]
        exact List.mem_cons_self q t
    have hp := List.mem_filter.mp hpf
    have hpk : p.1 = c.id := of_decide_eq_true hp.2
    have hctxeq : (summarize db c).context
        = (if p.2.user_role.isSome then some (ConversationContext.ofRow p.2) else none) := by
      simp only [summarize, hh, Option.map_some']
    constructor
    · rw [hctxeq]
      by_cases hu : p.2.user_role.isSome = true
      · rw [if_pos hu]
        exact iff_of_true (by simp) ⟨p, hp.1, hpk, hu⟩
      · rw [if_neg hu]
        apply iff_of_false (by simp)
        rintro ⟨r, hr, hk, hro⟩
        have hsome := head_filter_of_mem_nodup db.conversation_context hctx r hr c.id hk
        rw [hh] at hsome
        injection hsome with h2
        subst h2
        exact hu hro
    · intro r hr hk hro
      have hsome := head_filter_of_mem_nodup db.conversation_context hctx r hr c.id hk
      rw [hh] at hsome
      injection hsome with h2
      subst h2
      rw [hctxeq, if_pos hro]

/-- C8 (amended): the listing returns exactly the conversations owned by the
resolved account (as a permutation), ordered by creation time descending, and
each summary carries its context exactly when a context row with non-null
`user_role` exists for it (carrying that row's fields), given the primary-key
invariant on the context table. -/
theorem list_conversations_spec (db : Db) (uid : Str) (hctx : keysNodup db.conversation_context) :
    ((list_conversations db uid).map
        (fun s => (⟨s.id, s.user_id, s.title, s.created_at⟩ : Conversation))).Perm
      (db.conversations.filter
        (fun c => decide (c.user_id = resolve_user_id_for_conversations db uid)))
    ∧ List.Sorted (fun a b : Nat => b ≤ a)
        ((list_conversations db uid).map ConversationSummary.created_at)
    ∧ (∀ s ∈ list_conversations db uid,
        (s.context.isSome ↔ ∃ r ∈ db.conversation_context, r.1 = s.id ∧ r.2.user_role.isSome)
        ∧ (∀ r ∈ db.conversation_context, r.1 = s.id → r.2.user_role.isSome = true →
            s.context = some (ConversationContext.ofRow r.2))) := by
  refine ⟨?_, ?_, ?_⟩
  · have hmm : (list_conversations db uid).map
        (fun s => (⟨s.id, s.user_id, s.title, s.created_at⟩ : Conversation))
        = List.insertionSort byCreatedDesc
            (db.conversations.filter
              (fun c => decide (c.user_id = resolve_user_id_for_conversations db uid))) := by
      simp only [list_conversations]
      rw [List.map_map,
        show ((fun s : ConversationSummary =>
            (⟨s.id, s.user_id, s.title, s.created_at⟩ : Conversation)) ∘ summarize db) = id
          from funext fun c => rfl,
        List.map_id]
    rw [hmm]
    exact List.perm_insertionSort byCreatedDesc _
  · have hs := List.sorted_insertionSort byCreatedDesc
      (db.conversations.filter
        (fun c => decide (c.user_id = resolve_user_id_for_conversations db uid)))
    have h2 := hs.map (fun c : Conversation => c.created_at)
      (S := fun a b : Nat => b ≤ a) (fun a b hab => hab)
    simp only [list_conversations, List.map_map]
    exact h2
  · intro s hs
    simp only [list_conversations, List.mem_map] at hs
    obtain ⟨c, hcmem, rfl⟩ := hs
    exact summarize_context_spec db hctx c

/-- Witness for the amended C8 theorem on the concrete one-conversation
database. -/
theorem list_conversations_spec_witness :
    keysNodup c8db.conversation_context
    ∧ ((list_conversations c8db ("u".data)).map
        (fun s => (⟨s.id, s.user_id, s.title, s.created_at⟩ : Conversation))).Perm
        (c8db.conversations.filter
          (fun c => decide (c.user_id = resolve_user_id_for_conversations c8db ("u".data)))) :=
  ⟨by decide, (list_conversations_spec c8db ("u".data) (by decide)).1⟩

end AlphaChat
